import Mathlib

/-!
Verification of the service-control-client aggregation core.

This file gives a shallow embedding of the aggregation and cache engine of
the service control client library (money arithmetic, report metric-value
fingerprints, the operation aggregator, the distribution helper, the check
and report aggregator caches, the eviction stack buffer and the client
facade shutdown sequence), and proves or refutes the specification claims
about them.

Machine integers are modelled as `Int` with explicit two's-complement
wrapping where the C++ arithmetic can overflow; C++ `double` is modelled as
`Rat`; protobuf maps are modelled as association lists in insertion order.
-/

namespace ServiceControlClient

/-! ### Machine integer model -/

/-- Largest value of a C++ `int64_t`. -/
def INT64_MAX : Int := 9223372036854775807

/-- Smallest value of a C++ `int64_t`. -/
def INT64_MIN : Int := -9223372036854775808

/-- Two's-complement wrap of an integer into the `int64_t` range, the result
of C++ 64-bit addition when it overflows. -/
def wrap64 (n : Int) : Int := (n + 2 ^ 63) % 2 ^ 64 - 2 ^ 63

/-- Two's-complement wrap of an integer into the 32-bit `int` range. -/
def wrap32 (n : Int) : Int := (n + 2 ^ 31) % 2 ^ 32 - 2 ^ 31

/-- Status codes of `google::protobuf::util::Status` used by this library
(messages are not modelled). -/
inductive StatusCode where
  | ok
  | invalidArgument
  | notFound
  | outOfRange
  deriving DecidableEq, Repr

/-! ### Money (`src/src/money_utils.cc`) -/

/-- `google.type.Money`: a currency code plus `units` (`int64`) and `nanos`
(`int32`). -/
structure Money where
  currency_code : String
  units : Int
  nanos : Int
  deriving DecidableEq, Repr

/-- A default-constructed (cleared) `Money` message. -/
def defaultMoney : Money := ⟨"", 0, 0⟩

/-- `GetAmountSign` from `money_utils.cc`: +1 / 0 / -1 by `units` first and
`nanos` second. -/
def GetAmountSign (money : Money) : Int :=
  if money.units > 0 then 1
  else if money.units < 0 then -1
  else if money.nanos > 0 then 1
  else if money.nanos < 0 then -1
  else 0

/-- The billion constant used for the nanos carry. -/
def kBillion : Int := 1000000000

/-- `TryAddMoney` from `money_utils.cc`. `prior` is the prior content of the
output parameter `*sum`; every path of the C++ function overwrites all three
fields, so the result never depends on it. 64-bit unit additions wrap;
the 32-bit nanos addition wraps. -/
def TryAddMoney (a b : Money) (prior : Money) : StatusCode × Money :=
  if a.currency_code ≠ b.currency_code then
    -- sum->clear_currency_code(); sum->clear_units(); sum->clear_nanos();
    (StatusCode.invalidArgument, defaultMoney)
  else
    let _ := prior
    let currency := a.currency_code
    -- Calculate the sum of nanos, extracting a carry across a billion.
    let sum_nanos0 : Int := wrap32 (a.nanos + b.nanos)
    let carry : Int := if sum_nanos0 ≥ kBillion then 1
      else if sum_nanos0 ≤ -kBillion then -1 else 0
    let sum_nanos1 : Int :=
      if sum_nanos0 ≥ kBillion then sum_nanos0 - kBillion
      else if sum_nanos0 ≤ -kBillion then sum_nanos0 + kBillion
      else sum_nanos0
    -- Calculate the sum of units.
    let sum_units_no_carry : Int := wrap64 (a.units + b.units)
    let sum_units0 : Int := wrap64 (sum_units_no_carry + carry)
    -- Adjust if sum_units and sum_nanos have different signs.
    let sum_units : Int :=
      if sum_units0 > 0 ∧ sum_nanos1 < 0 then sum_units0 - 1
      else if sum_units0 < 0 ∧ sum_nanos1 > 0 then sum_units0 + 1
      else sum_units0
    let sum_nanos : Int :=
      if sum_units0 > 0 ∧ sum_nanos1 < 0 then sum_nanos1 + kBillion
      else if sum_units0 < 0 ∧ sum_nanos1 > 0 then sum_nanos1 - kBillion
      else sum_nanos1
    let sign_a := GetAmountSign a
    let sign_b := GetAmountSign b
    -- Detect positive overflow.
    if sign_a > 0 ∧ sign_b > 0 ∧ sum_units ≤ 0 then
      (StatusCode.outOfRange, ⟨currency, INT64_MAX, kBillion - 1⟩)
    -- Detect negative overflow, checking both sum_units_no_carry and
    -- sum_units (sum_units_no_carry can wrap to 0 with the carry making
    -- sum_units negative again).
    else if sign_a < 0 ∧ sign_b < 0 ∧ (sum_units_no_carry ≥ 0 ∨ sum_units ≥ 0) then
      (StatusCode.outOfRange, ⟨currency, INT64_MIN, -kBillion + 1⟩)
    else
      (StatusCode.ok, ⟨currency, sum_units, sum_nanos⟩)

/-- `SaturatedAddMoney` from `money_utils.cc`: `TryAddMoney` ignoring the
out-of-range status. -/
def SaturatedAddMoney (a b : Money) : Money :=
  (TryAddMoney a b defaultMoney).2

/-! ### Distributions (`src/utils/distribution_helper.cc`)

C++ `double` fields are modelled as `Rat`. -/

/-- The bucket scheme variants of `Distribution.bucket_option`. -/
inductive BucketOpt where
  | linearBuckets (num_finite_buckets : Int) (width offsetVal : Rat)
  | exponentialBuckets (num_finite_buckets : Int) (growth_factor scale : Rat)
  | explicitBuckets (bounds : List Rat)
  | bucketOptNotSet
  deriving DecidableEq, Repr

/-- `google.api.servicecontrol.v1.Distribution`. -/
structure Distribution where
  count : Int
  mean : Rat
  minimum : Rat
  maximum : Rat
  sum_of_squared_deviation : Rat
  bucket_counts : List Int
  bucket_option : BucketOpt
  deriving DecidableEq, Repr

/-- `std::abs` on the `double` model. -/
def ratAbs (x : Rat) : Rat := if x < 0 then -x else x

/-- `IsCloseEnough` from `distribution_helper.cc`:
`|x - y| <= 1e-5 * |x|`. -/
def IsCloseEnough (x y : Rat) : Bool :=
  ratAbs (x - y) ≤ (1 / 100000 : Rat) * ratAbs x

/-- `BucketsApproximatelyEqual` from `distribution_helper.cc`: same bucket
option case, equal finite-bucket counts / bounds sizes, and each scheme
parameter close within relative tolerance 1e-5. -/
def BucketsApproximatelyEqual (first second : Distribution) : Bool :=
  match first.bucket_option, second.bucket_option with
  | BucketOpt.linearBuckets n1 w1 o1, BucketOpt.linearBuckets n2 w2 o2 =>
    n1 = n2 && IsCloseEnough w1 w2 && IsCloseEnough o1 o2
  | BucketOpt.exponentialBuckets n1 g1 s1, BucketOpt.exponentialBuckets n2 g2 s2 =>
    n1 = n2 && IsCloseEnough g1 g2 && IsCloseEnough s1 s2
  | BucketOpt.explicitBuckets b1, BucketOpt.explicitBuckets b2 =>
    b1.length = b2.length && (List.zip b1 b2).all fun p => IsCloseEnough p.1 p.2
  | _, _ => false

namespace DistributionHelper

/-- `DistributionHelper::Merge`: merge `source` into `dest` (the C++ `from`
and `to`), returning the status and the updated `dest`. -/
def Merge (source : Distribution) (dest : Distribution) :
    StatusCode × Distribution :=
  if ¬ BucketsApproximatelyEqual source dest then
    (StatusCode.invalidArgument, dest)
  else if source.bucket_counts.length ≠ dest.bucket_counts.length then
    (StatusCode.invalidArgument, dest)
  else if source.count ≤ 0 then (StatusCode.ok, dest)
  else if dest.count ≤ 0 then (StatusCode.ok, source)
  else
    let count : Int := dest.count
    let mean : Rat := dest.mean
    let ssd : Rat := dest.sum_of_squared_deviation
    let newCount : Int := dest.count + source.count
    let newMean : Rat :=
      ((count : Rat) * mean + (source.count : Rat) * source.mean) / (newCount : Rat)
    (StatusCode.ok,
      { dest with
        count := newCount
        minimum := min source.minimum dest.minimum
        maximum := max source.maximum dest.maximum
        mean := newMean
        sum_of_squared_deviation :=
          ssd + source.sum_of_squared_deviation +
            (count : Rat) * (newMean - mean) * (newMean - mean) +
            (source.count : Rat) * (newMean - source.mean) * (newMean - source.mean)
        bucket_counts :=
          (List.zip dest.bucket_counts source.bucket_counts).map fun p => p.1 + p.2 })

end DistributionHelper

/-! ### Fingerprints (`src/src/signature.cc`)

The hashed byte strings are fed to MD5 (`utils/md5`, not part of the core
sources). Modelled from the spec: the digest of the cryptographic hash is
represented injectively by the hashed byte string itself, so equal inputs
give equal fingerprints; delimiters are single NUL bytes exactly as in
`signature.cc`. -/

/-- The NUL delimiter written between concatenated fields. -/
def kDelimiter : String := "\x00"

/-- Ordered insertion by key, modelling construction of
`std::map<string, string>` from the protobuf label map (lexicographic key
order; protobuf map keys are unique). -/
def labelInsert (p : String × String) : List (String × String) → List (String × String)
  | [] => [p]
  | q :: qs => if p.1 < q.1 then p :: q :: qs else q :: labelInsert p qs

/-- Labels sorted in lexicographic key order. -/
def sortLabels (labels : List (String × String)) : List (String × String) :=
  labels.foldr labelInsert []

/-- `UpdateHashLabels` from `signature.cc`: for each label in key order,
append NUL, key, NUL, value to the hash input. -/
def UpdateHashLabels (labels : List (String × String)) : String :=
  (sortLabels labels).foldl
    (fun acc l => acc ++ kDelimiter ++ l.1 ++ kDelimiter ++ l.2) ""

/-! ### Operations and metric values
(`google/api/servicecontrol/v1` messages used by the core) -/

/-- `google.protobuf.Timestamp`. -/
structure Timestamp where
  seconds : Int
  nanos : Int
  deriving DecidableEq, Repr

/-- A default-constructed `Timestamp`, returned by proto accessors for an
unset field. -/
def defaultTimestamp : Timestamp := ⟨0, 0⟩

/-- `TimestampBefore` from `operation_aggregator.cc`. -/
def TimestampBefore (a b : Timestamp) : Bool :=
  a.seconds < b.seconds || (a.seconds == b.seconds && a.nanos < b.nanos)

/-- The `value` oneof of `MetricValue`. -/
inductive MetricValueData where
  | int64Value (v : Int)
  | doubleValue (v : Rat)
  | moneyValue (m : Money)
  | distributionValue (d : Distribution)
  | valueNotSet
  deriving DecidableEq, Repr

/-- The `value_case()` discriminant of a metric value. -/
def MetricValueData.caseTag : MetricValueData → Nat
  | int64Value _ => 1
  | doubleValue _ => 2
  | moneyValue _ => 3
  | distributionValue _ => 4
  | valueNotSet => 0

/-- `google.api.servicecontrol.v1.MetricValue`. Unset timestamps are
`none`. -/
structure MetricValue where
  labels : List (String × String)
  start_time : Option Timestamp
  end_time : Option Timestamp
  data : MetricValueData
  deriving DecidableEq, Repr

/-- `Operation::Importance`. -/
inductive Importance where
  | low
  | high
  deriving DecidableEq, Repr

/-- `google.api.servicecontrol.v1.MetricValueSet`. -/
structure MetricValueSet where
  metric_name : String
  metric_values : List MetricValue
  deriving DecidableEq, Repr

/-- `google.api.servicecontrol.v1.Operation`. Log entries are modelled by
an opaque payload string. -/
structure Operation where
  operation_id : String
  operation_name : String
  consumer_id : String
  labels : List (String × String)
  start_time : Option Timestamp
  end_time : Option Timestamp
  importance : Importance
  metric_value_sets : List MetricValueSet
  log_entries : List String
  deriving DecidableEq, Repr

/-- A default-constructed `Operation`. -/
def defaultOperation : Operation :=
  ⟨"", "", "", [], none, none, Importance.low, [], []⟩

/-- `UpdateHashMetricValue` from `signature.cc`: hashes the metric value
labels only (the source has no branch for the money currency code). -/
def UpdateHashMetricValue (metric_value : MetricValue) : String :=
  UpdateHashLabels metric_value.labels

/-- `GenerateReportMetricValueSignature` from `signature.cc` (the digest is
modelled by the hash input itself). -/
def GenerateReportMetricValueSignature (metric_value : MetricValue) : String :=
  UpdateHashMetricValue metric_value

/-- `GenerateReportOperationSignature` from `signature.cc`: consumer id,
NUL, operation name, then the labels. -/
def GenerateReportOperationSignature (operation : Operation) : String :=
  operation.consumer_id ++ kDelimiter ++ operation.operation_name ++
    UpdateHashLabels operation.labels

/-! ### Operation aggregator (`src/src/operation_aggregator.cc`) -/

/-- `google.api.MetricDescriptor.MetricKind` values used by the merge
logic. -/
inductive MetricKind where
  | delta
  | cumulative
  | gauge
  deriving DecidableEq, Repr

/-- Lookup in an association list (`FindOrNull` on the unordered maps; keys
are unique by construction). -/
def assocFind {β : Type} (l : List (String × β)) (k : String) : Option β :=
  match l with
  | [] => none
  | p :: ps => if p.1 = k then some p.2 else assocFind ps k

/-- Replace the value stored under an existing key of an association
list. -/
def assocReplace {β : Type} (l : List (String × β)) (k : String) (v : β) :
    List (String × β) :=
  match l with
  | [] => []
  | p :: ps => if p.1 = k then (k, v) :: ps else p :: assocReplace ps k v

/-- `FindWithDefault` on the metric-kind map: defaults to DELTA for a
missing name or an absent map. -/
def findKindWithDefault (kinds : Option (List (String × MetricKind)))
    (name : String) : MetricKind :=
  match kinds with
  | none => MetricKind.delta
  | some m => (assocFind m name).getD MetricKind.delta

/-- `MergeCumulativeOrGaugeMetricValue` from `operation_aggregator.cc`: the
incoming value overrides the accumulated one unless its end time is
strictly earlier (unset timestamps read as the default instance). -/
def MergeCumulativeOrGaugeMetricValue (source dest : MetricValue) : MetricValue :=
  if TimestampBefore (source.end_time.getD defaultTimestamp)
      (dest.end_time.getD defaultTimestamp) then dest
  else source

/-- `MergeDeltaMetricValue` from `operation_aggregator.cc`: on matching
value cases, widen the start/end times and combine the payloads; INT64 and
DOUBLE are summed, DISTRIBUTION is merged via `DistributionHelper::Merge`;
the switch has no case for MONEY, which therefore falls to `default` and
leaves the accumulated value unchanged. -/
def MergeDeltaMetricValue (source dest : MetricValue) : MetricValue :=
  if source.data.caseTag ≠ dest.data.caseTag then dest
  else
    let dest :=
      match source.start_time with
      | none => dest
      | some st =>
        if dest.start_time.isNone ||
            TimestampBefore st (dest.start_time.getD defaultTimestamp) then
          { dest with start_time := some st }
        else dest
    let dest :=
      match source.end_time with
      | none => dest
      | some et =>
        if dest.end_time.isNone ||
            TimestampBefore (dest.end_time.getD defaultTimestamp) et then
          { dest with end_time := some et }
        else dest
    match dest.data, source.data with
    | MetricValueData.int64Value dv, MetricValueData.int64Value sv =>
      { dest with data := MetricValueData.int64Value (wrap64 (dv + sv)) }
    | MetricValueData.doubleValue dv, MetricValueData.doubleValue sv =>
      { dest with data := MetricValueData.doubleValue (dv + sv) }
    | MetricValueData.distributionValue dv, MetricValueData.distributionValue sv =>
      { dest with data :=
          MetricValueData.distributionValue (DistributionHelper.Merge sv dv).2 }
    | _, _ => dest

/-- `MergeMetricValue` from `operation_aggregator.cc`: dispatch on the
metric kind. -/
def MergeMetricValue (metric_kind : MetricKind) (source dest : MetricValue) :
    MetricValue :=
  if metric_kind = MetricKind.delta then MergeDeltaMetricValue source dest
  else MergeCumulativeOrGaugeMetricValue source dest

/-- Inner loop of `OperationAggregator::MergeMetricValueSets`: fold the
incoming metric values into the fingerprint-keyed accumulator map of one
metric name. -/
def mergeValuesInto (kind : MetricKind)
    (cur : List (String × MetricValue)) : List MetricValue →
    List (String × MetricValue)
  | [] => cur
  | v :: vs =>
    let signature := GenerateReportMetricValueSignature v
    match assocFind cur signature with
    | none => mergeValuesInto kind (cur ++ [(signature, v)]) vs
    | some existing =>
      mergeValuesInto kind
        (assocReplace cur signature (MergeMetricValue kind v existing)) vs

/-- Outer loop of `OperationAggregator::MergeMetricValueSets`: for each
incoming metric value set, create the per-name accumulator map if missing
(the C++ `metric_value_sets_[name]`) and fold the values into it. -/
def mergeSetsInto (kinds : Option (List (String × MetricKind)))
    (acc : List (String × List (String × MetricValue))) :
    List MetricValueSet → List (String × List (String × MetricValue))
  | [] => acc
  | set :: rest =>
    let kind := findKindWithDefault kinds set.metric_name
    let acc :=
      match assocFind acc set.metric_name with
      | none =>
        acc ++ [(set.metric_name, mergeValuesInto kind [] set.metric_values)]
      | some cur =>
        assocReplace acc set.metric_name (mergeValuesInto kind cur set.metric_values)
    mergeSetsInto kinds acc rest

/-- `OperationAggregator`: the stored base operation (with
`metric_value_sets` cleared), the metric-kind table and the nested
metric-name → fingerprint → accumulated-value maps (association lists in
insertion order). -/
structure OperationAggregator where
  operation : Operation
  metric_kinds : Option (List (String × MetricKind))
  metric_value_sets : List (String × List (String × MetricValue))
  deriving DecidableEq, Repr

namespace OperationAggregator

/-- The constructor of `OperationAggregator`: ingest the initial metric
value sets, then clear them from the stored base operation. -/
def make (operation : Operation)
    (metric_kinds : Option (List (String × MetricKind))) : OperationAggregator :=
  { operation := { operation with metric_value_sets := [] }
    metric_kinds := metric_kinds
    metric_value_sets := mergeSetsInto metric_kinds [] operation.metric_value_sets }

/-- `OperationAggregator::MergeOperation`: widen the base start/end times,
merge the metric value sets, append the log entries. -/
def MergeOperation (agg : OperationAggregator) (operation : Operation) :
    OperationAggregator :=
  let base := agg.operation
  let base :=
    match operation.start_time with
    | none => base
    | some st =>
      if base.start_time.isNone ||
          TimestampBefore st (base.start_time.getD defaultTimestamp) then
        { base with start_time := some st }
      else base
  let base :=
    match operation.end_time with
    | none => base
    | some et =>
      if base.end_time.isNone ||
          TimestampBefore (base.end_time.getD defaultTimestamp) et then
        { base with end_time := some et }
      else base
  let base := { base with log_entries := base.log_entries ++ operation.log_entries }
  { agg with
    operation := base
    metric_value_sets :=
      mergeSetsInto agg.metric_kinds agg.metric_value_sets operation.metric_value_sets }

/-- `OperationAggregator::ToOperationProto`: clone the base operation and
emit one metric value set per metric name with the accumulated values in
map order. -/
def ToOperationProto (agg : OperationAggregator) : Operation :=
  { agg.operation with
    metric_value_sets :=
      agg.metric_value_sets.map fun p => ⟨p.1, p.2.map Prod.snd⟩ }

end OperationAggregator

/-! ### Check aggregator (`src/src/check_aggregator_impl.cc`) -/

/-- `google.api.servicecontrol.v1.CheckResponse`, reduced to the fields the
core reads: the list of check errors (opaque codes). -/
structure CheckResponse where
  check_errors : List Nat
  deriving DecidableEq, Repr

/-- `google.api.servicecontrol.v1.CheckRequest`. An unset operation is
`none`. -/
structure CheckRequest where
  service_name : String
  operation : Option Operation
  deriving DecidableEq, Repr

/-- `GenerateCheckRequestSignature` from `signature.cc`: operation name,
consumer id, operation labels, then per metric value set the metric name
and each metric value's label hash, with NUL delimiters as in the
source. -/
def GenerateCheckRequestSignature (request : CheckRequest) : String :=
  let operation := request.operation.getD defaultOperation
  let base := operation.operation_name ++ kDelimiter ++ operation.consumer_id ++
    kDelimiter ++ UpdateHashLabels operation.labels
  let withSets := operation.metric_value_sets.foldl
    (fun acc set =>
      set.metric_values.foldl (fun acc v => acc ++ UpdateHashMetricValue v)
        (acc ++ kDelimiter ++ set.metric_name))
    base
  withSets ++ kDelimiter

/-- `CheckAggregatorImpl::CacheElem`: cached response, last check time (in
cycles), quota scale, flushing flag, and the optional pending operation
aggregator. -/
structure CacheElem where
  operation_aggregator : Option OperationAggregator
  check_response : CheckResponse
  last_check_time : Int
  quota_scale : Int
  is_flushing : Bool
  deriving DecidableEq, Repr

namespace CacheElem

/-- `CacheElem::Aggregate`: create the pending aggregator from the request
operation on first use, merge into it afterwards. -/
def Aggregate (elem : CacheElem) (request : CheckRequest)
    (metric_kinds : Option (List (String × MetricKind))) : CacheElem :=
  { elem with
    operation_aggregator :=
      match elem.operation_aggregator with
      | none =>
        some (OperationAggregator.make (request.operation.getD defaultOperation)
          metric_kinds)
      | some agg => some (agg.MergeOperation (request.operation.getD defaultOperation)) }

/-- `CacheElem::HasPendingCheckRequest`. -/
def HasPendingCheckRequest (elem : CacheElem) : Bool :=
  elem.operation_aggregator.isSome

/-- The check request materialized by `CacheElem::ReturnCheckRequestAndClear`
for an entry with a pending aggregator. -/
def pendingCheckRequest (elem : CacheElem) (service_name : String) : CheckRequest :=
  ⟨service_name, elem.operation_aggregator.map OperationAggregator.ToOperationProto⟩

end CacheElem

/-- State of a `CheckAggregatorImpl`. The LRU container itself
(`utils/simple_lru_cache`) is not part of the core sources; modelled from
the spec: the cache is an association list keyed by request signature,
capacity-driven eviction is not modelled, and the `Flush` idle sweep
approximates the idle clock by `last_check_time`. No claim proved below
depends on which entries a sweep or capacity eviction removes. -/
structure CheckAggState where
  service_name : String
  flush_interval_in_cycle : Int
  expiration_in_cycle : Int
  metric_kinds : Option (List (String × MetricKind))
  cacheEnabled : Bool
  cache : List (String × CacheElem)
  deriving DecidableEq, Repr

namespace CheckAggState

/-- `CheckAggregatorImpl::ShouldFlush`: the entry's age since the last
check time reached the flush interval. -/
def ShouldFlush (s : CheckAggState) (elem : CacheElem) (now : Int) : Bool :=
  now - elem.last_check_time ≥ s.flush_interval_in_cycle

/-- `CheckAggregatorImpl::Check`. Returns the status, the response written
back to the caller (for OK results), and the updated state; `now` is
`SimpleCycleTimer::Now()`. -/
def check (s : CheckAggState) (request : CheckRequest) (now : Int) :
    StatusCode × Option CheckResponse × CheckAggState :=
  if request.service_name ≠ s.service_name then
    (StatusCode.invalidArgument, none, s)
  else if request.operation.isNone then
    (StatusCode.invalidArgument, none, s)
  else if (request.operation.getD defaultOperation).importance ≠ Importance.low
      ∨ ¬ s.cacheEnabled then
    (StatusCode.notFound, none, s)
  else
    let signature := GenerateCheckRequestSignature request
    match assocFind s.cache signature with
    | none => (StatusCode.notFound, none, s)
    | some elem =>
      if elem.check_response.check_errors.length > 0 then
        if s.ShouldFlush elem now then
          let cache := assocReplace s.cache signature ({ elem with last_check_time := now })
          (StatusCode.notFound, none, { s with cache := cache })
        else
          (StatusCode.ok, some elem.check_response, s)
      else
        let elem := elem.Aggregate request s.metric_kinds
        if s.ShouldFlush elem now then
          let cache := assocReplace s.cache signature
            ({ elem with is_flushing := true, last_check_time := now })
          (StatusCode.notFound, none, { s with cache := cache })
        else
          (StatusCode.ok, some elem.check_response,
            { s with cache := assocReplace s.cache signature elem })

/-- `CheckAggregatorImpl::CacheResponse`: update an existing entry in place
(leaving any pending aggregator untouched) or insert a fresh entry with no
pending aggregator. -/
def cacheResponse (s : CheckAggState) (request : CheckRequest)
    (response : CheckResponse) (now : Int) : CheckAggState :=
  if ¬ s.cacheEnabled then s
  else
    let signature := GenerateCheckRequestSignature request
    match assocFind s.cache signature with
    | some elem =>
      let cache := assocReplace s.cache signature
        ({ elem with
          last_check_time := now
          check_response := response
          quota_scale := 0
          is_flushing := false })
      { s with cache := cache }
    | none =>
      { s with cache := s.cache ++ [(signature, ⟨none, response, now, 0, false⟩)] }

/-- `CheckAggregatorImpl::OnCacheEntryDelete`: emit the aggregated check
request of an evicted entry when it has a pending aggregator. -/
def onCacheEntryDelete (s : CheckAggState) (elem : CacheElem) :
    Option CheckRequest :=
  if elem.HasPendingCheckRequest then some (elem.pendingCheckRequest s.service_name)
  else none

/-- `CheckAggregatorImpl::Flush`: remove expired entries (idle window
approximated by `last_check_time`, see `CheckAggState`), emitting the
pending request of each removed entry. -/
def flush (s : CheckAggState) (now : Int) : CheckAggState × List CheckRequest :=
  let expired := s.cache.filter fun p => now - p.2.last_check_time ≥ s.expiration_in_cycle
  let kept := s.cache.filter fun p => ¬ (now - p.2.last_check_time ≥ s.expiration_in_cycle)
  ({ s with cache := kept }, expired.filterMap fun p => s.onCacheEntryDelete p.2)

/-- `CheckAggregatorImpl::FlushAll`: remove every entry, emitting the
pending request of each entry that has one. -/
def flushAll (s : CheckAggState) : CheckAggState × List CheckRequest :=
  ({ s with cache := [] }, s.cache.filterMap fun p => s.onCacheEntryDelete p.2)

end CheckAggState

/-! ### Report aggregator (`src/src/report_aggregator_impl.cc`) and the
eviction stack buffer (`src/src/cache_removed_items_handler.h`) -/

/-- `google.api.servicecontrol.v1.ReportRequest`. -/
structure ReportRequest where
  service_name : String
  service_config_id : String
  operations : List Operation
  deriving DecidableEq, Repr

/-- Maximum number of operations carried by one merged outbound report
request (`kMaxOperationsToSend`). -/
def kMaxOperationsToSend : Nat := 100

/-- Protobuf `MergeFrom` on `ReportRequest`: repeated `operations` are
appended, scalar fields are overwritten when set in the source. -/
def ReportRequest.mergeFrom (dst src : ReportRequest) : ReportRequest :=
  { service_name := if src.service_name = "" then dst.service_name else src.service_name
    service_config_id :=
      if src.service_config_id = "" then dst.service_config_id else src.service_config_id
    operations := dst.operations ++ src.operations }

/-- `ReportAggregatorImpl::MergeItem`: merge the new item into the buffered
old item when the service names match and the combined operation count does
not exceed `kMaxOperationsToSend`; returns whether it merged and the
(possibly updated) old item. -/
def reportMergeItem (new_item old_item : ReportRequest) : Bool × ReportRequest :=
  if old_item.service_name ≠ new_item.service_name ∨
      old_item.operations.length + new_item.operations.length > kMaxOperationsToSend then
    (false, old_item)
  else
    (true, old_item.mergeFrom new_item)

/-- `CacheRemovedItemsHandler::MergeItem`, the base-class default used by
the check aggregator: never merge. -/
def checkMergeItem (new_item old_item : CheckRequest) : Bool × CheckRequest :=
  let _ := new_item
  (false, old_item)

/-- `CacheRemovedItemsHandler::StackBuffer::Add`: merge the new item into
the buffer's tail element when the merge predicate accepts it, otherwise
append. -/
def stackAdd {α : Type} (mergeFn : α → α → Bool × α) :
    List α → α → List α
  | [], item => [item]
  | [tail], item =>
    let r := mergeFn item tail
    if r.1 then [r.2] else [tail, item]
  | x :: y :: rest, item => x :: stackAdd mergeFn (y :: rest) item

/-- The content of a `StackBuffer` after adding the given items in order to
an initially empty buffer; the buffer's destructor then emits the items in
list order to the flush callback. -/
def stackBufferOf {α : Type} (mergeFn : α → α → Bool × α) (items : List α) :
    List α :=
  items.foldl (stackAdd mergeFn) []

/-- `HasHighImportantOperation` from `report_aggregator_impl.cc`. -/
def HasHighImportantOperation (request : ReportRequest) : Bool :=
  request.operations.any fun operation => operation.importance ≠ Importance.low

/-- State of a `ReportAggregatorImpl`. As with `CheckAggState`, the LRU
container is not part of the core sources; modelled from the spec: the
cache is an association list keyed by operation signature and
capacity/age-driven eviction outside `FlushAll` is not modelled. -/
structure ReportAggState where
  service_name : String
  service_config_id : String
  metric_kinds : Option (List (String × MetricKind))
  cacheEnabled : Bool
  cache : List (String × OperationAggregator)
  deriving DecidableEq, Repr

namespace ReportAggState

/-- `ReportAggregatorImpl::Report`: validate the service name, pass through
high-importance requests, otherwise merge every operation into the cache by
its report signature. -/
def report (s : ReportAggState) (request : ReportRequest) :
    StatusCode × ReportAggState :=
  if request.service_name ≠ s.service_name then
    (StatusCode.invalidArgument, s)
  else if HasHighImportantOperation request ∨ ¬ s.cacheEnabled then
    (StatusCode.notFound, s)
  else
    let cache := request.operations.foldl
      (fun cache operation =>
        let signature := GenerateReportOperationSignature operation
        match assocFind cache signature with
        | some agg => assocReplace cache signature (agg.MergeOperation operation)
        | none => cache ++ [(signature, OperationAggregator.make operation s.metric_kinds)])
      s.cache
    (StatusCode.ok, { s with cache := cache })

/-- `ReportAggregatorImpl::OnCacheEntryDelete`: wrap the evicted
aggregator's operation in a one-operation report request. -/
def onCacheEntryDelete (s : ReportAggState) (agg : OperationAggregator) :
    ReportRequest :=
  ⟨s.service_name, s.service_config_id, [agg.ToOperationProto]⟩

/-- `ReportAggregatorImpl::FlushAll`: remove every entry; the removed items
pass through the stack buffer, which tail-merges them with
`reportMergeItem`. -/
def flushAll (s : ReportAggState) : ReportAggState × List ReportRequest :=
  ({ s with cache := [] },
    stackBufferOf reportMergeItem (s.cache.map fun p => s.onCacheEntryDelete p.2))

end ReportAggState

/-! ### Client facade shutdown (`src/src/service_control_client_impl.cc`) -/

/-- The externally observable steps of `~ServiceControlClientImpl`. -/
inductive ShutdownEv where
  | evFlushAllCaches
  | evStopTimer
  | evSetCheckFlushCallbackNull
  | evSetReportFlushCallbackNull
  deriving DecidableEq, Repr

/-- State of a `ServiceControlClientImpl`: both aggregator states, whether
each flush callback is currently connected (non-null), and whether a
periodic flush timer was created. -/
structure ClientState where
  checkAgg : CheckAggState
  reportAgg : ReportAggState
  checkCbConnected : Bool
  reportCbConnected : Bool
  hasTimer : Bool
  deriving DecidableEq, Repr

/-- `~ServiceControlClientImpl` as written in the source: first
`FlushAll()` on both caches, then stop the timer if one exists, then
disconnect both flush callbacks. Returns the ordered list of shutdown
steps together with the check and report requests actually delivered to
the flush callbacks (`FlushOut` drops items whose callback is null; at
`FlushAll` time both callbacks still hold their original values). -/
def ClientState.destruct (s : ClientState) :
    List ShutdownEv × List CheckRequest × List ReportRequest :=
  let checkEmitted := (s.checkAgg.flushAll).2
  let reportEmitted := (s.reportAgg.flushAll).2
  let deliveredChecks := if s.checkCbConnected then checkEmitted else []
  let deliveredReports := if s.reportCbConnected then reportEmitted else []
  let events :=
    [ShutdownEv.evFlushAllCaches] ++
      (if s.hasTimer then [ShutdownEv.evStopTimer] else []) ++
      [ShutdownEv.evSetCheckFlushCallbackNull, ShutdownEv.evSetReportFlushCallbackNull]
  (events, deliveredChecks, deliveredReports)

/-! ### Derived observations used by the theorems -/

/-- All `(metric name, metric value)` pairs of a list of metric value sets,
in message order. -/
def flatPairs (sets : List MetricValueSet) : List (String × MetricValue) :=
  (sets.map fun set => set.metric_values.map fun v => (set.metric_name, v)).flatten

/-- All `(metric name, metric value fingerprint)` pairs of a list of metric
value sets, in message order. -/
def keyPairs (sets : List MetricValueSet) : List (String × String) :=
  (sets.map fun set =>
    set.metric_values.map fun v =>
      (set.metric_name, GenerateReportMetricValueSignature v)).flatten

/-- All `(metric name, accumulated metric value)` pairs of an aggregator's
nested map. -/
def aggFlatPairs (m : List (String × List (String × MetricValue))) :
    List (String × MetricValue) :=
  (m.map fun p => p.2.map fun q => (p.1, q.2)).flatten

/-- All `(metric name, fingerprint)` key pairs of an aggregator's nested
map. -/
def aggKeyPairs (m : List (String × List (String × MetricValue))) :
    List (String × String) :=
  (m.map fun p => p.2.map fun q => (p.1, q.1)).flatten

/-- Run a sequence of `Check` calls for one request at the given times,
threading the aggregator state and recording each call's time and
status. -/
def runChecks (s : CheckAggState) (request : CheckRequest) :
    List Int → List (Int × StatusCode)
  | [] => []
  | t :: ts =>
    let r := s.check request t
    (t, r.1) :: runChecks r.2.2 request ts

/-- The times of the calls that returned NOT_FOUND. -/
def notFoundTimes (l : List (Int × StatusCode)) : List Int :=
  l.filterMap fun p => if p.2 = StatusCode.notFound then some p.1 else none

/-! ### Concrete fixtures used by counterexamples and witnesses -/

/-- A well-formed check request for the service `"svc"` whose operation is
the default low-importance operation. -/
def cexRequest : CheckRequest := ⟨"svc", some defaultOperation⟩

/-- A check response without check errors (a pass). -/
def passResponse : CheckResponse := ⟨[]⟩

/-- A check response carrying one check error (a denial). -/
def deniedResponse : CheckResponse := ⟨[7]⟩

/-- An empty check aggregator for service `"svc"` with flush interval 100
cycles and expiration 1000 cycles. -/
def cexInitState : CheckAggState := ⟨"svc", 100, 1000, none, true, []⟩

/-- The check aggregator state reached by the call sequence
`CacheResponse(r, pass)@0; Check(r)@1; CacheResponse(r, denial)@2`. -/
def cexFinalState : CheckAggState :=
  ((((cexInitState.cacheResponse cexRequest passResponse 0).check
    cexRequest 1).2.2).cacheResponse cexRequest deniedResponse 2)

/-- A client about to shut down: timer running, both callbacks connected,
and one pending aggregator in the report cache. -/
def cexClient : ClientState :=
  ⟨cexInitState,
    ⟨"svc", "cfg", none, true, [("sig", OperationAggregator.make defaultOperation none)]⟩,
    true, true, true⟩

/-- The event order claimed by the specification for shutdown: callbacks
first, then the timer, then `FlushAll`. -/
def specClaimedShutdownOrder : List ShutdownEv :=
  [ShutdownEv.evSetCheckFlushCallbackNull, ShutdownEv.evSetReportFlushCallbackNull,
    ShutdownEv.evStopTimer, ShutdownEv.evFlushAllCaches]

/-- A metric value with no labels carrying the given money amount. -/
def moneyMetricValue (m : Money) : MetricValue :=
  ⟨[], none, none, MetricValueData.moneyValue m⟩

/-- A metric value with one label carrying 1000 units of the given
currency. -/
def currencyMetricValue (code : String) : MetricValue :=
  ⟨[("k", "v")], none, none, MetricValueData.moneyValue ⟨code, 1000, 0⟩⟩

/-- An operation whose single metric value set contains the same int64
metric value twice (two values with equal labels, hence equal
fingerprints). -/
def dupOperation : Operation :=
  { defaultOperation with
    metric_value_sets :=
      [⟨"m", [⟨[], none, none, MetricValueData.int64Value 1⟩,
              ⟨[], none, none, MetricValueData.int64Value 1⟩]⟩] }

/-- An operation with two metric values under one metric name whose labels
differ, so their report fingerprints differ. -/
def distinctOperation : Operation :=
  { defaultOperation with
    metric_value_sets :=
      [⟨"m", [⟨[("a", "1")], none, none, MetricValueData.int64Value 1⟩,
              ⟨[("b", "2")], none, none, MetricValueData.int64Value 2⟩]⟩]
    log_entries := ["log1"] }

/-- A linear-bucket distribution with the given count and three zero bucket
counts. -/
def linDist (c : Int) : Distribution :=
  ⟨c, 0, 0, 0, 0, [0, 0, 0], BucketOpt.linearBuckets 1 1 0⟩

/-- A denied cache entry fixture: a check aggregator holding one entry for
`cexRequest` whose cached response is a denial refreshed at time 0. -/
def deniedState : CheckAggState :=
  ⟨"svc", 100, 1000, none, true,
    [(GenerateCheckRequestSignature cexRequest, ⟨none, deniedResponse, 0, 0, false⟩)]⟩

/-- The state after `Check` refreshes a denied entry: the entry's
`last_check_time` is set to `now`, everything else unchanged. -/
def refreshedState (s : CheckAggState) (request : CheckRequest)
    (elem : CacheElem) (now : Int) : CheckAggState :=
  { s with
    cache :=
      assocReplace s.cache (GenerateCheckRequestSignature request)
        ({ elem with last_check_time := now }) }

/-! ## Theorems -/

/-- Claim C5 (code bug): `TryAddMoney` on the valid same-currency inputs
`{USD, 0 units, 1 nano}` and `{USD, 0 units, 1 nano}` — same sign, no
int64 overflow anywhere — returns OUT_OF_RANGE with the positive saturated
value instead of OK with the exact sum `{USD, 0, 2}`. The positive-overflow
test `sum_units <= 0` also fires when the exact unit sum is zero,
contradicting the contract in `money_utils.h` that OUT_OF_RANGE is returned
exactly on arithmetic overflow. -/
theorem tryAddMoney_saturates_without_overflow :
    TryAddMoney ⟨"USD", 0, 1⟩ ⟨"USD", 0, 1⟩ ⟨"EUR", 5, 5⟩ =
      (StatusCode.outOfRange, ⟨"USD", INT64_MAX, 999999999⟩) ∧
    TryAddMoney ⟨"USD", 0, 1⟩ ⟨"USD", 0, 1⟩ ⟨"EUR", 5, 5⟩ ≠
      (StatusCode.ok, ⟨"USD", 0, 2⟩) := by
  decide

/-- Claim C10: when the currency codes of the two addends differ,
`TryAddMoney` returns INVALID_ARGUMENT and the output `sum` has all three
fields cleared to their defaults, regardless of its prior contents. -/
theorem tryAddMoney_currency_mismatch_clears_sum (a b prior : Money)
    (h : a.currency_code ≠ b.currency_code) :
    TryAddMoney a b prior = (StatusCode.invalidArgument, defaultMoney) := by
  simp [TryAddMoney, h]

/-- Witness for claim C10 at a concrete input with non-default prior
contents of `sum`. -/
theorem tryAddMoney_currency_mismatch_clears_sum_witness :
    TryAddMoney ⟨"USD", 3, 4⟩ ⟨"EUR", 1, 2⟩ ⟨"JPY", 9, 9⟩ =
      (StatusCode.invalidArgument, defaultMoney) :=
  tryAddMoney_currency_mismatch_clears_sum _ _ _ (by decide)

/-- Claim C3 (code bug): merging two same-currency money metric values
under DELTA leaves the accumulated value unchanged (the `switch` in
`MergeDeltaMetricValue` has no case for money, so it falls to the warning
`default`), instead of producing the saturated same-currency sum the
specification, the code's own comment, and the repository's
`DeltaMetricKind_MoneyValue` test all expect. -/
theorem delta_money_merge_drops_value :
    MergeMetricValue MetricKind.delta (moneyMetricValue ⟨"USD", 20, 0⟩)
        (moneyMetricValue ⟨"USD", 10, 0⟩) = moneyMetricValue ⟨"USD", 10, 0⟩ ∧
    SaturatedAddMoney ⟨"USD", 10, 0⟩ ⟨"USD", 20, 0⟩ = ⟨"USD", 30, 0⟩ ∧
    moneyMetricValue ⟨"USD", 10, 0⟩ ≠ moneyMetricValue ⟨"USD", 30, 0⟩ := by
  decide

/-- Claim C4 (code bug): the report metric-value fingerprint hashes the
labels only — `UpdateHashMetricValue` has no branch for the money currency
code — so two money metric values with identical labels but different
currency codes get the same fingerprint, contrary to the claim and to the
digest expected by the repository's `MetricValueHavingMoney` signature
test. -/
theorem report_metric_value_signature_ignores_currency :
    GenerateReportMetricValueSignature (currencyMetricValue "USD") =
      GenerateReportMetricValueSignature (currencyMetricValue "EUR") ∧
    (currencyMetricValue "USD").labels = (currencyMetricValue "EUR").labels ∧
    (currencyMetricValue "USD").data ≠ (currencyMetricValue "EUR").data := by
  decide

/-- Counterexample to claim C6 as stated: a source distribution with
`count = -1` (not `0`) merged into a matching destination with `count = 1`
is treated as a no-op by `Merge` (the source checks `count <= 0`, not
`count == 0`), so the destination's count is not the sum the claim's final
branch requires. -/
theorem distribution_merge_nonpositive_count_cex :
    BucketsApproximatelyEqual (linDist (-1)) (linDist 1) = true ∧
    (linDist (-1)).bucket_counts.length = (linDist 1).bucket_counts.length ∧
    (linDist (-1)).count ≠ 0 ∧
    DistributionHelper.Merge (linDist (-1)) (linDist 1) = (StatusCode.ok, linDist 1) ∧
    (linDist 1).count + (linDist (-1)).count ≠ (linDist 1).count := by
  have hclose : IsCloseEnough 1 1 = true := by
    simp [IsCloseEnough, ratAbs]; norm_num
  have hclose0 : IsCloseEnough 0 0 = true := by
    simp [IsCloseEnough, ratAbs]
  refine ⟨?_, by decide, by decide, ?_, by decide⟩
  · simp [BucketsApproximatelyEqual, linDist, hclose, hclose0]
  · simp [DistributionHelper.Merge, BucketsApproximatelyEqual, linDist,
      hclose, hclose0]

/-- Mapping pairwise addition over a zip is `zipWith (+)`. -/
theorem map_zip_add (l₁ l₂ : List Int) :
    (List.zip l₁ l₂).map (fun p => p.1 + p.2) = List.zipWith (· + ·) l₁ l₂ := by
  induction l₁ generalizing l₂ with
  | nil => simp
  | cons x xs ih =>
    cases l₂ with
    | nil => simp
    | cons y ys => simp [ih]

/-- Claim C6 (amended): `DistributionHelper::Merge` returns
INVALID_ARGUMENT and leaves the destination unchanged when the bucket
schemes are not approximately equal or the bucket-counts lengths differ; it
is a no-op when the source count is NONPOSITIVE (the code checks
`count <= 0`, not `count == 0`); it copies the source when the destination
count is nonpositive; and otherwise it sums the counts and bucket counts,
takes the min of minima and max of maxima, sets the count-weighted average
mean, and combines the sums of squared deviations by the parallel-variance
formula. -/
theorem distribution_merge_spec (source dest : Distribution) :
    (¬ BucketsApproximatelyEqual source dest = true →
      DistributionHelper.Merge source dest = (StatusCode.invalidArgument, dest)) ∧
    (BucketsApproximatelyEqual source dest = true →
      source.bucket_counts.length ≠ dest.bucket_counts.length →
      DistributionHelper.Merge source dest = (StatusCode.invalidArgument, dest)) ∧
    (BucketsApproximatelyEqual source dest = true →
      source.bucket_counts.length = dest.bucket_counts.length →
      source.count ≤ 0 →
      DistributionHelper.Merge source dest = (StatusCode.ok, dest)) ∧
    (BucketsApproximatelyEqual source dest = true →
      source.bucket_counts.length = dest.bucket_counts.length →
      0 < source.count → dest.count ≤ 0 →
      DistributionHelper.Merge source dest = (StatusCode.ok, source)) ∧
    (BucketsApproximatelyEqual source dest = true →
      source.bucket_counts.length = dest.bucket_counts.length →
      0 < source.count → 0 < dest.count →
      (DistributionHelper.Merge source dest).1 = StatusCode.ok ∧
      (DistributionHelper.Merge source dest).2.count = dest.count + source.count ∧
      (DistributionHelper.Merge source dest).2.minimum = min source.minimum dest.minimum ∧
      (DistributionHelper.Merge source dest).2.maximum = max source.maximum dest.maximum ∧
      (DistributionHelper.Merge source dest).2.mean *
          ((dest.count : Rat) + (source.count : Rat)) =
        (dest.count : Rat) * dest.mean + (source.count : Rat) * source.mean ∧
      (DistributionHelper.Merge source dest).2.sum_of_squared_deviation =
        dest.sum_of_squared_deviation + source.sum_of_squared_deviation +
          (dest.count : Rat) *
            ((DistributionHelper.Merge source dest).2.mean - dest.mean) ^ 2 +
          (source.count : Rat) *
            ((DistributionHelper.Merge source dest).2.mean - source.mean) ^ 2 ∧
      (DistributionHelper.Merge source dest).2.bucket_counts =
        List.zipWith (· + ·) dest.bucket_counts source.bucket_counts ∧
      (DistributionHelper.Merge source dest).2.bucket_option = dest.bucket_option) := by
  refine ⟨?_, ?_, ?_, ?_, ?_⟩
  · intro h
    unfold DistributionHelper.Merge
    rw [if_pos h]
  · intro h hlen
    unfold DistributionHelper.Merge
    rw [if_neg (not_not_intro h), if_pos hlen]
  · intro h hlen hc
    unfold DistributionHelper.Merge
    rw [if_neg (not_not_intro h), if_neg (not_not_intro hlen), if_pos hc]
  · intro h hlen hs hd
    unfold DistributionHelper.Merge
    rw [if_neg (not_not_intro h), if_neg (not_not_intro hlen),
      if_neg (not_le.2 hs), if_pos hd]
  · intro h hlen hs hd
    have hsum : ((dest.count : Rat) + (source.count : Rat)) ≠ 0 := by
      have h0 : (0 : Int) < dest.count + source.count := by omega
      have h1 : ((dest.count + source.count : Int) : Rat) ≠ 0 := by
        exact_mod_cast h0.ne'
      push_cast at h1
      exact h1
    unfold DistributionHelper.Merge
    rw [if_neg (not_not_intro h), if_neg (not_not_intro hlen),
      if_neg (not_le.2 hs), if_neg (not_le.2 hd)]
    simp only []
    refine ⟨trivial, trivial, trivial, trivial, ?_, ?_, map_zip_add _ _, trivial⟩
    · push_cast
      rw [div_mul_cancel₀ _ hsum]
    · push_cast
      ring

/-- Witness for claim C6's amended theorem: a nonpositive-count source is a
no-op on a matching destination. -/
theorem distribution_merge_spec_witness :
    DistributionHelper.Merge (linDist 0) (linDist 1) = (StatusCode.ok, linDist 1) :=
  (distribution_merge_spec (linDist 0) (linDist 1)).2.2.1
    (by simp [BucketsApproximatelyEqual, linDist, IsCloseEnough, ratAbs]; norm_num)
    (by decide) (by decide)

/-- Counterexample to claim C1 as stated: after the reachable call sequence
`CacheResponse(r, pass)@0; Check(r)@1; CacheResponse(r, denial)@2` the
cache holds an entry whose stored response has a check error AND whose
pending operation aggregator is still present — `CacheResponse` on an
existing entry does not clear the aggregator. -/
theorem cacheResponse_error_keeps_pending_aggregator_cex :
    ∃ p ∈ cexFinalState.cache,
      p.2.check_response.check_errors ≠ [] ∧ p.2.operation_aggregator ≠ none := by
  decide

/-- Looking up a key after replacing its value finds the new value. -/
theorem assocFind_replace_self {β : Type} (l : List (String × β)) (k : String)
    (v w : β) (h : assocFind l k = some w) :
    assocFind (assocReplace l k v) k = some v := by
  induction l with
  | nil => simp [assocFind] at h
  | cons p ps ih =>
    by_cases hp : p.1 = k
    · simp [assocFind, assocReplace, hp]
    · simp [assocFind, assocReplace, hp] at h ⊢
      exact ih h

/-- Looking up a key appended at the end of a list in which it was absent
finds the appended value. -/
theorem assocFind_append_self {β : Type} (l : List (String × β)) (k : String)
    (v : β) (h : assocFind l k = none) :
    assocFind (l ++ [(k, v)]) k = some v := by
  induction l with
  | nil => simp [assocFind]
  | cons p ps ih =>
    by_cases hp : p.1 = k
    · simp [assocFind, hp] at h
    · simp [assocFind, hp] at h ⊢
      exact ih h

/-- Claim C1 (amended): (a) an entry freshly inserted by `CacheResponse`
has no pending aggregator; (b) `Check` on an entry whose stored response
has check errors leaves the entry unchanged or merely refreshes its
`last_check_time`, never creating or extending a pending aggregator; (c)
`CacheResponse` on an existing entry replaces the response and resets
time/scale/flag but preserves the pending aggregator as it is — which is
why the original claim's invariant fails when a denial response overwrites
a pass entry that had aggregated requests. -/
theorem check_error_entries_never_aggregate (s : CheckAggState)
    (request : CheckRequest) (response : CheckResponse) (now : Int) :
    (assocFind s.cache (GenerateCheckRequestSignature request) = none →
      s.cacheEnabled = true →
      assocFind (s.cacheResponse request response now).cache
          (GenerateCheckRequestSignature request) =
        some ⟨none, response, now, 0, false⟩) ∧
    (∀ elem, assocFind s.cache (GenerateCheckRequestSignature request) = some elem →
      elem.check_response.check_errors ≠ [] →
      assocFind (s.check request now).2.2.cache
          (GenerateCheckRequestSignature request) = some elem ∨
      assocFind (s.check request now).2.2.cache
          (GenerateCheckRequestSignature request) =
        some ({ elem with last_check_time := now })) ∧
    (∀ elem, assocFind s.cache (GenerateCheckRequestSignature request) = some elem →
      s.cacheEnabled = true →
      assocFind (s.cacheResponse request response now).cache
          (GenerateCheckRequestSignature request) =
        some ⟨elem.operation_aggregator, response, now, 0, false⟩) := by
  refine ⟨?_, ?_, ?_⟩
  · intro hnone henabled
    unfold CheckAggState.cacheResponse
    rw [if_neg (not_not_intro henabled)]
    simp only [hnone]
    exact assocFind_append_self _ _ _ hnone
  · intro elem hfind herr
    unfold CheckAggState.check
    by_cases h1 : request.service_name ≠ s.service_name
    · rw [if_pos h1]
      exact Or.inl hfind
    rw [if_neg h1]
    by_cases h2 : request.operation.isNone = true
    · rw [if_pos h2]
      exact Or.inl hfind
    rw [if_neg h2]
    by_cases h3 : (request.operation.getD defaultOperation).importance ≠ Importance.low
        ∨ ¬ s.cacheEnabled = true
    · rw [if_pos h3]
      exact Or.inl hfind
    rw [if_neg h3]
    simp only [hfind]
    have herrlen : elem.check_response.check_errors.length > 0 :=
      List.length_pos.2 herr
    rw [if_pos herrlen]
    by_cases h4 : s.ShouldFlush elem now = true
    · rw [if_pos h4]
      exact Or.inr (assocFind_replace_self _ _ _ _ hfind)
    · rw [if_neg h4]
      exact Or.inl hfind
  · intro elem hfind henabled
    unfold CheckAggState.cacheResponse
    rw [if_neg (not_not_intro henabled)]
    simp only [hfind]
    exact assocFind_replace_self _ _ _ _ hfind

/-- Witness for claim C1's amended theorem: caching a denial response under
a fresh fingerprint creates an entry with no pending aggregator. -/
theorem check_error_entries_never_aggregate_witness :
    assocFind ((cexInitState.cacheResponse cexRequest deniedResponse 5).cache)
        (GenerateCheckRequestSignature cexRequest) =
      some ⟨none, deniedResponse, 5, 0, false⟩ :=
  (check_error_entries_never_aggregate cexInitState cexRequest deniedResponse 5).1
    (by decide) (by decide)

/-- Counterexample to claim C2 as stated: the destructor of the client
facade runs `FlushAll` FIRST (with both flush callbacks still connected),
then stops the timer, then swaps the callbacks to no-op — not the claimed
callbacks/timer/`FlushAll` order — and a shutdown `FlushAll` over a report
cache holding one pending aggregator delivers an outbound report request
to the flush callback. -/
theorem shutdown_order_cex :
    cexClient.destruct.1 ≠ specClaimedShutdownOrder ∧
    cexClient.destruct.2.2 ≠ [] := by
  decide

/-- Adding an item to an eviction stack buffer never empties it. -/
theorem stackAdd_ne_nil {α : Type} (mergeFn : α → α → Bool × α) (l : List α)
    (x : α) : stackAdd mergeFn l x ≠ [] := by
  match l with
  | [] => simp [stackAdd]
  | [t] =>
    simp only [stackAdd]
    split <;> simp
  | a :: b :: rest => simp [stackAdd]

/-- Folding items into a nonempty eviction stack buffer keeps it
nonempty. -/
theorem stackAdd_foldl_ne_nil {α : Type} (mergeFn : α → α → Bool × α) :
    ∀ (l acc : List α), acc ≠ [] → l.foldl (stackAdd mergeFn) acc ≠ [] := by
  intro l
  induction l with
  | nil => intro acc h; exact h
  | cons x xs ih =>
    intro acc _
    exact ih (stackAdd mergeFn acc x) (stackAdd_ne_nil mergeFn acc x)

/-- A stack buffer built from at least one evicted item is nonempty. -/
theorem stackBufferOf_ne_nil {α : Type} (mergeFn : α → α → Bool × α)
    (l : List α) (h : l ≠ []) : stackBufferOf mergeFn l ≠ [] := by
  match l with
  | [] => exact absurd rfl h
  | x :: xs =>
    unfold stackBufferOf
    rw [List.foldl_cons]
    exact stackAdd_foldl_ne_nil mergeFn xs _ (stackAdd_ne_nil mergeFn [] x)

/-- A key is absent from an association list exactly when `assocFind`
returns `none`. -/
theorem assocFind_eq_none {β : Type} (l : List (String × β)) (k : String) :
    assocFind l k = none ↔ k ∉ l.map Prod.fst := by
  induction l with
  | nil => simp [assocFind]
  | cons p ps ih =>
    simp only [assocFind, List.map_cons, List.mem_cons]
    by_cases hp : p.1 = k
    · simp [hp]
    · rw [if_neg hp]
      rw [ih]
      constructor
      · intro h hmem
        rcases hmem with he | hm
        · exact hp he.symm
        · exact h hm
      · intro h hm
        exact h (Or.inr hm)

/-- `assocFind` over an append skips a prefix that lacks the key. -/
theorem assocFind_append_none {β : Type} (l₁ l₂ : List (String × β)) (k : String)
    (h : assocFind l₁ k = none) :
    assocFind (l₁ ++ l₂) k = assocFind l₂ k := by
  induction l₁ with
  | nil => simp
  | cons p ps ih =>
    by_cases hp : p.1 = k
    · simp [assocFind, hp] at h
    · simp [assocFind, hp] at h ⊢
      exact ih h

/-- A successful `assocFind` splits the list around the first occurrence of
the key. -/
theorem assocFind_some_split {β : Type} (l : List (String × β)) (k : String)
    (v : β) (h : assocFind l k = some v) :
    ∃ l₁ l₂, l = l₁ ++ (k, v) :: l₂ ∧ assocFind l₁ k = none := by
  induction l with
  | nil => simp [assocFind] at h
  | cons p ps ih =>
    obtain ⟨p1, p2⟩ := p
    simp only [assocFind] at h
    by_cases hp : p1 = k
    · rw [if_pos hp] at h
      have h2 : p2 = v := Option.some.inj h
      subst hp
      subst h2
      exact ⟨[], ps, rfl, rfl⟩
    · rw [if_neg hp] at h
      obtain ⟨l₁, l₂, heq, hnone⟩ := ih h
      refine ⟨(p1, p2) :: l₁, l₂, by simp [heq], ?_⟩
      simp only [assocFind]
      rw [if_neg hp]
      exact hnone

/-- `assocReplace` at the first occurrence of the key rewrites just that
entry. -/
theorem assocReplace_split {β : Type} (l₁ l₂ : List (String × β)) (k : String)
    (v w : β) (h : assocFind l₁ k = none) :
    assocReplace (l₁ ++ (k, v) :: l₂) k w = l₁ ++ (k, w) :: l₂ := by
  induction l₁ with
  | nil => simp [assocReplace]
  | cons p ps ih =>
    by_cases hp : p.1 = k
    · simp [assocFind, hp] at h
    · simp [assocFind, hp] at h
      simp [assocReplace, hp, ih h]

/-- Nodup of a constant-first-component pair list gives nodup of the second
components. -/
theorem nodup_of_nodup_pair {α β : Type} (a : String) (f : α → β) :
    ∀ l : List α, (l.map fun x => (a, f x)).Nodup → (l.map f).Nodup := by
  intro l
  induction l with
  | nil => simp
  | cons x xs ih =>
    intro h
    simp only [List.map_cons, List.nodup_cons, List.mem_map] at h ⊢
    refine ⟨?_, ih h.2⟩
    rintro ⟨y, hy, hf⟩
    exact h.1 ⟨y, hy, by rw [hf]⟩

/-- Every fingerprint stored under a name found in the aggregator map
appears among its key pairs. -/
theorem mem_aggKeyPairs_of_find (acc : List (String × List (String × MetricValue)))
    (name : String) (cur : List (String × MetricValue))
    (h : assocFind acc name = some cur) (sg : String)
    (hsg : sg ∈ cur.map Prod.fst) : (name, sg) ∈ aggKeyPairs acc := by
  induction acc with
  | nil => simp [assocFind] at h
  | cons p ps ih =>
    by_cases hp : p.1 = name
    · simp only [assocFind] at h
      rw [if_pos hp] at h
      have h2 : p.2 = cur := Option.some.inj h
      simp only [aggKeyPairs, List.map_cons, List.flatten_cons, List.mem_append]
      left
      obtain ⟨q, hq, hqs⟩ := List.mem_map.1 hsg
      exact List.mem_map.2 ⟨q, by rw [h2]; exact hq, by rw [hp, hqs]⟩
    · simp only [assocFind] at h
      rw [if_neg hp] at h
      simp only [aggKeyPairs, List.map_cons, List.flatten_cons, List.mem_append]
      right
      exact ih h

/-- `aggKeyPairs` distributes over append. -/
theorem aggKeyPairs_append (m₁ m₂ : List (String × List (String × MetricValue))) :
    aggKeyPairs (m₁ ++ m₂) = aggKeyPairs m₁ ++ aggKeyPairs m₂ := by
  simp [aggKeyPairs]

/-- `aggKeyPairs` on a cons. -/
theorem aggKeyPairs_cons (p : String × List (String × MetricValue))
    (m : List (String × List (String × MetricValue))) :
    aggKeyPairs (p :: m) = p.2.map (fun q => (p.1, q.1)) ++ aggKeyPairs m := by
  simp [aggKeyPairs]

/-- `aggFlatPairs` distributes over append. -/
theorem aggFlatPairs_append (m₁ m₂ : List (String × List (String × MetricValue))) :
    aggFlatPairs (m₁ ++ m₂) = aggFlatPairs m₁ ++ aggFlatPairs m₂ := by
  simp [aggFlatPairs]

/-- `aggFlatPairs` on a cons. -/
theorem aggFlatPairs_cons (p : String × List (String × MetricValue))
    (m : List (String × List (String × MetricValue))) :
    aggFlatPairs (p :: m) = p.2.map (fun q => (p.1, q.2)) ++ aggFlatPairs m := by
  simp [aggFlatPairs]

/-- `keyPairs` on a cons. -/
theorem keyPairs_cons (mvset : MetricValueSet) (rest : List MetricValueSet) :
    keyPairs (mvset :: rest) =
      (mvset.metric_values.map fun v =>
        (mvset.metric_name, GenerateReportMetricValueSignature v)) ++
        keyPairs rest := by
  simp [keyPairs]

/-- `flatPairs` on a cons. -/
theorem flatPairs_cons (mvset : MetricValueSet) (rest : List MetricValueSet) :
    flatPairs (mvset :: rest) =
      (mvset.metric_values.map fun v => (mvset.metric_name, v)) ++
        flatPairs rest := by
  simp [flatPairs]

/-- When the incoming metric values all have fresh fingerprints (pairwise
distinct and absent from the accumulator), the inner merge loop appends
each value under its fingerprint without merging anything. -/
theorem mergeValuesInto_no_collisions (kind : MetricKind) :
    ∀ (vs : List MetricValue) (cur : List (String × MetricValue)),
      (vs.map GenerateReportMetricValueSignature).Nodup →
      (∀ v ∈ vs, assocFind cur (GenerateReportMetricValueSignature v) = none) →
      mergeValuesInto kind cur vs =
        cur ++ vs.map fun v => (GenerateReportMetricValueSignature v, v) := by
  intro vs
  induction vs with
  | nil => intro cur _ _; simp [mergeValuesInto]
  | cons v vs ih =>
    intro cur hnodup hnone
    have hhead := hnone v (List.mem_cons_self v vs)
    simp only [mergeValuesInto, hhead]
    have hsig : GenerateReportMetricValueSignature v ∉
        vs.map GenerateReportMetricValueSignature :=
      (List.nodup_cons.1 (by simpa using hnodup)).1
    rw [ih (cur ++ [(GenerateReportMetricValueSignature v, v)])
      (List.nodup_cons.1 (by simpa using hnodup)).2 ?_]
    · simp
    · intro v' hv'
      rw [assocFind_append_none _ _ _ (hnone v' (List.mem_cons_of_mem v hv'))]
      have hne : GenerateReportMetricValueSignature v ≠
          GenerateReportMetricValueSignature v' := by
        intro he
        exact hsig (he ▸ List.mem_map_of_mem GenerateReportMetricValueSignature hv')
      simp [assocFind, hne]

/-- Outer merge loop specification for collision-free inputs: starting from
an accumulator with distinct metric names whose key pairs are disjoint from
the incoming ones, `mergeSetsInto` keeps the names distinct and produces
exactly the old pairs plus the incoming pairs, up to grouping order. -/
theorem mergeSetsInto_spec (kinds : Option (List (String × MetricKind))) :
    ∀ (sets : List MetricValueSet)
      (acc : List (String × List (String × MetricValue))),
      (acc.map Prod.fst).Nodup →
      (aggKeyPairs acc ++ keyPairs sets).Nodup →
      ((mergeSetsInto kinds acc sets).map Prod.fst).Nodup ∧
      (aggKeyPairs (mergeSetsInto kinds acc sets)).Perm
        (aggKeyPairs acc ++ keyPairs sets) ∧
      (aggFlatPairs (mergeSetsInto kinds acc sets)).Perm
        (aggFlatPairs acc ++ flatPairs sets) := by
  intro sets
  induction sets with
  | nil =>
    intro acc hkeys hnodup
    refine ⟨by simpa [mergeSetsInto] using hkeys, ?_, ?_⟩
    · simp [mergeSetsInto, keyPairs]
    · simp [mergeSetsInto, flatPairs]
  | cons mvset rest ih =>
    intro acc hkeys hnodup
    rw [keyPairs_cons] at hnodup
    have hsig : (mvset.metric_values.map GenerateReportMetricValueSignature).Nodup := by
      have h1 := (List.nodup_append.1 ((List.nodup_append.1 hnodup).2.1)).1
      exact nodup_of_nodup_pair mvset.metric_name _ _ h1
    cases hfind : assocFind acc mvset.metric_name with
    | none =>
      have hnewVals : mergeValuesInto (findKindWithDefault kinds mvset.metric_name)
          [] mvset.metric_values =
          mvset.metric_values.map
            (fun v => (GenerateReportMetricValueSignature v, v)) := by
        rw [mergeValuesInto_no_collisions _ mvset.metric_values [] hsig
          (fun v _ => rfl)]
        simp
      have hstep : mergeSetsInto kinds acc (mvset :: rest) =
          mergeSetsInto kinds
            (acc ++ [(mvset.metric_name,
              mvset.metric_values.map
                (fun v => (GenerateReportMetricValueSignature v, v)))]) rest := by
        simp only [mergeSetsInto, hfind, hnewVals]
      have hK1 : aggKeyPairs (acc ++ [(mvset.metric_name,
          mvset.metric_values.map
            (fun v => (GenerateReportMetricValueSignature v, v)))]) =
          aggKeyPairs acc ++ (mvset.metric_values.map fun v =>
            (mvset.metric_name, GenerateReportMetricValueSignature v)) := by
        rw [aggKeyPairs_append, aggKeyPairs_cons]
        simp [aggKeyPairs, List.map_map, Function.comp]
      have hF1 : aggFlatPairs (acc ++ [(mvset.metric_name,
          mvset.metric_values.map
            (fun v => (GenerateReportMetricValueSignature v, v)))]) =
          aggFlatPairs acc ++ (mvset.metric_values.map fun v =>
            (mvset.metric_name, v)) := by
        rw [aggFlatPairs_append, aggFlatPairs_cons]
        simp [aggFlatPairs, List.map_map, Function.comp]
      have hni : mvset.metric_name ∉ acc.map Prod.fst :=
        (assocFind_eq_none _ _).1 hfind
      have hKeys1 : ((acc ++ [(mvset.metric_name,
          mvset.metric_values.map
            (fun v => (GenerateReportMetricValueSignature v, v)))]).map
            Prod.fst).Nodup := by
        rw [List.map_append]
        refine List.Nodup.append hkeys (by simp) ?_
        intro a ha hb
        simp at hb
        exact hni (hb ▸ ha)
      have hnodup' : (aggKeyPairs (acc ++ [(mvset.metric_name,
          mvset.metric_values.map
            (fun v => (GenerateReportMetricValueSignature v, v)))]) ++
          keyPairs rest).Nodup := by
        rw [hK1, List.append_assoc]
        exact hnodup
      obtain ⟨ihK, ihP, ihF⟩ := ih _ hKeys1 hnodup'
      rw [hstep]
      refine ⟨ihK, ?_, ?_⟩
      · refine ihP.trans ?_
        rw [hK1, keyPairs_cons, List.append_assoc]
      · refine ihF.trans ?_
        rw [hF1, flatPairs_cons, List.append_assoc]
    | some cur =>
      have hdisj := (List.nodup_append.1 hnodup).2.2
      have hnofind : ∀ v ∈ mvset.metric_values,
          assocFind cur (GenerateReportMetricValueSignature v) = none := by
        intro v hv
        cases hcv : assocFind cur (GenerateReportMetricValueSignature v) with
        | none => rfl
        | some w =>
          exfalso
          have hmem : GenerateReportMetricValueSignature v ∈ cur.map Prod.fst := by
            by_contra hnm
            rw [(assocFind_eq_none cur _).2 hnm] at hcv
            exact Option.noConfusion hcv
          have h1 : (mvset.metric_name, GenerateReportMetricValueSignature v) ∈
              aggKeyPairs acc :=
            mem_aggKeyPairs_of_find acc _ cur hfind _ hmem
          have h2 : (mvset.metric_name, GenerateReportMetricValueSignature v) ∈
              mvset.metric_values.map fun v' =>
                (mvset.metric_name, GenerateReportMetricValueSignature v') :=
            List.mem_map.2 ⟨v, hv, rfl⟩
          exact hdisj h1 (List.mem_append.2 (Or.inl h2))
      have hnewVals : mergeValuesInto (findKindWithDefault kinds mvset.metric_name)
          cur mvset.metric_values =
          cur ++ mvset.metric_values.map
            (fun v => (GenerateReportMetricValueSignature v, v)) :=
        mergeValuesInto_no_collisions _ _ _ hsig hnofind
      obtain ⟨l₁, l₂, hsplit, hl₁⟩ := assocFind_some_split acc _ cur hfind
      have hreplace : assocReplace acc mvset.metric_name
          (cur ++ mvset.metric_values.map
            (fun v => (GenerateReportMetricValueSignature v, v))) =
          l₁ ++ (mvset.metric_name,
            cur ++ mvset.metric_values.map
              (fun v => (GenerateReportMetricValueSignature v, v))) :: l₂ := by
        rw [hsplit]
        exact assocReplace_split _ _ _ _ _ hl₁
      have hstep : mergeSetsInto kinds acc (mvset :: rest) =
          mergeSetsInto kinds
            (l₁ ++ (mvset.metric_name,
              cur ++ mvset.metric_values.map
                (fun v => (GenerateReportMetricValueSignature v, v))) :: l₂) rest := by
        simp only [mergeSetsInto, hfind, hnewVals, hreplace]
      have hKperm : (aggKeyPairs (l₁ ++ (mvset.metric_name,
          cur ++ mvset.metric_values.map
            (fun v => (GenerateReportMetricValueSignature v, v))) :: l₂)).Perm
          (aggKeyPairs acc ++ (mvset.metric_values.map fun v =>
            (mvset.metric_name, GenerateReportMetricValueSignature v))) := by
        rw [hsplit, aggKeyPairs_append, aggKeyPairs_append, aggKeyPairs_cons,
          aggKeyPairs_cons]
        simp only [List.map_append, List.map_map, Function.comp, List.append_assoc]
        exact List.Perm.append_left _
          (List.Perm.append_left _ List.perm_append_comm)
      have hFperm : (aggFlatPairs (l₁ ++ (mvset.metric_name,
          cur ++ mvset.metric_values.map
            (fun v => (GenerateReportMetricValueSignature v, v))) :: l₂)).Perm
          (aggFlatPairs acc ++ (mvset.metric_values.map fun v =>
            (mvset.metric_name, v))) := by
        rw [hsplit, aggFlatPairs_append, aggFlatPairs_append, aggFlatPairs_cons,
          aggFlatPairs_cons]
        simp only [List.map_append, List.map_map, Function.comp, List.append_assoc]
        exact List.Perm.append_left _
          (List.Perm.append_left _ List.perm_append_comm)
      have hKeys1 : ((l₁ ++ (mvset.metric_name,
          cur ++ mvset.metric_values.map
            (fun v => (GenerateReportMetricValueSignature v, v))) :: l₂).map
            Prod.fst).Nodup := by
        have : (l₁ ++ (mvset.metric_name,
            cur ++ mvset.metric_values.map
              (fun v => (GenerateReportMetricValueSignature v, v))) :: l₂).map
              Prod.fst = acc.map Prod.fst := by
          rw [hsplit]
          simp
        rw [this]
        exact hkeys
      have hnodup' : (aggKeyPairs (l₁ ++ (mvset.metric_name,
          cur ++ mvset.metric_values.map
            (fun v => (GenerateReportMetricValueSignature v, v))) :: l₂) ++
          keyPairs rest).Nodup := by
        refine ((hKperm.append_right (keyPairs rest)).symm).nodup ?_
        rw [List.append_assoc]
        exact hnodup
      obtain ⟨ihK, ihP, ihF⟩ := ih _ hKeys1 hnodup'
      rw [hstep]
      refine ⟨ihK, ?_, ?_⟩
      · refine ihP.trans ?_
        refine (hKperm.append_right (keyPairs rest)).trans ?_
        rw [keyPairs_cons, List.append_assoc]
      · refine ihF.trans ?_
        refine (hFperm.append_right (flatPairs rest)).trans ?_
        rw [flatPairs_cons, List.append_assoc]

/-- Counterexample to claim C9 as stated: an operation whose metric value
set holds the same int64 value twice (equal labels, hence equal
fingerprints) round-trips through a fresh aggregator to a SINGLE merged
value (the DELTA sum 2), not to the same multiset of metric values. -/
theorem aggregator_singleton_roundtrip_cex :
    flatPairs
        ((OperationAggregator.make dupOperation none).ToOperationProto).metric_value_sets ≠
      flatPairs dupOperation.metric_value_sets ∧
    ¬ (flatPairs
        ((OperationAggregator.make dupOperation none).ToOperationProto).metric_value_sets).Perm
      (flatPairs dupOperation.metric_value_sets) := by
  constructor
  · decide
  · intro h
    have hlen := h.length_eq
    have h1 : (flatPairs
        ((OperationAggregator.make dupOperation none).ToOperationProto).metric_value_sets).length
        = 1 := by decide
    have h2 : (flatPairs dupOperation.metric_value_sets).length = 2 := by decide
    omega

/-- Flattening a converted aggregator map gives its flat pairs. -/
theorem flatPairs_toProto (m : List (String × List (String × MetricValue))) :
    flatPairs (m.map fun p => ⟨p.1, p.2.map Prod.snd⟩) = aggFlatPairs m := by
  simp only [flatPairs, aggFlatPairs, List.map_map]
  have hfun : ((fun mvset : MetricValueSet =>
      mvset.metric_values.map fun v => (mvset.metric_name, v)) ∘
        fun p : String × List (String × MetricValue) =>
          (⟨p.1, p.2.map Prod.snd⟩ : MetricValueSet)) =
      fun p => p.2.map fun q => (p.1, q.2) := by
    funext p
    simp [Function.comp, List.map_map]
  rw [hfun]

/-- Claim C9 (amended): for every operation in which no two metric values
under the same metric name share a report fingerprint, constructing a fresh
`OperationAggregator` (with any metric-kind table) and converting back
yields an operation with the same `(metric name, metric value)` pairs up to
map order, the same log entries and remaining fields, and pairwise distinct
metric-value-set names (no duplicated sets). Metric values with colliding
fingerprints are merged instead, which is what refutes the unrestricted
claim. -/
theorem aggregator_singleton_roundtrip (op : Operation)
    (kinds : Option (List (String × MetricKind)))
    (hnodup : (keyPairs op.metric_value_sets).Nodup) :
    (flatPairs
        ((OperationAggregator.make op kinds).ToOperationProto).metric_value_sets).Perm
      (flatPairs op.metric_value_sets) ∧
    ((OperationAggregator.make op kinds).ToOperationProto).log_entries =
      op.log_entries ∧
    (((OperationAggregator.make op kinds).ToOperationProto).metric_value_sets.map
      MetricValueSet.metric_name).Nodup ∧
    { (OperationAggregator.make op kinds).ToOperationProto with
        metric_value_sets := [] } = { op with metric_value_sets := [] } := by
  obtain ⟨hK, hP, hF⟩ := mergeSetsInto_spec kinds op.metric_value_sets []
    (by simp) (by simpa [aggKeyPairs] using hnodup)
  refine ⟨?_, rfl, ?_, rfl⟩
  · have hres : ((OperationAggregator.make op kinds).ToOperationProto).metric_value_sets =
        (mergeSetsInto kinds [] op.metric_value_sets).map
          fun p => ⟨p.1, p.2.map Prod.snd⟩ := rfl
    rw [hres, flatPairs_toProto]
    refine hF.trans ?_
    simp [aggFlatPairs]
  · have hres : ((OperationAggregator.make op kinds).ToOperationProto).metric_value_sets =
        (mergeSetsInto kinds [] op.metric_value_sets).map
          fun p => ⟨p.1, p.2.map Prod.snd⟩ := rfl
    rw [hres, List.map_map]
    exact hK

/-- Witness for claim C9's amended theorem: an operation with two
distinct-fingerprint metric values round-trips with its pairs preserved up
to order and its log entries intact. -/
theorem aggregator_singleton_roundtrip_witness :
    (flatPairs
        ((OperationAggregator.make distinctOperation none).ToOperationProto).metric_value_sets).Perm
      (flatPairs distinctOperation.metric_value_sets) ∧
    ((OperationAggregator.make distinctOperation none).ToOperationProto).log_entries =
      distinctOperation.log_entries :=
  ⟨(aggregator_singleton_roundtrip distinctOperation none (by decide)).1,
    (aggregator_singleton_roundtrip distinctOperation none (by decide)).2.1⟩

/-- `ShouldFlush` holds exactly when the age since the last check time has
reached the flush interval. -/
theorem shouldFlush_iff (s : CheckAggState) (elem : CacheElem) (now : Int) :
    s.ShouldFlush elem now = true ↔
      s.flush_interval_in_cycle ≤ now - elem.last_check_time := by
  simp [CheckAggState.ShouldFlush, ge_iff_le]

/-- `Check` on a cache hit whose stored response has check errors: serve
the cached denial unchanged while the age is below the flush interval, and
refresh `last_check_time` returning NOT_FOUND once the age reaches it. -/
theorem check_denied_hit (s : CheckAggState) (request : CheckRequest)
    (now : Int) (elem : CacheElem)
    (hname : request.service_name = s.service_name)
    (hop : request.operation.isNone = false)
    (himp : (request.operation.getD defaultOperation).importance = Importance.low)
    (hen : s.cacheEnabled = true)
    (hfind : assocFind s.cache (GenerateCheckRequestSignature request) = some elem)
    (herr : elem.check_response.check_errors ≠ []) :
    s.check request now =
      if s.flush_interval_in_cycle ≤ now - elem.last_check_time then
        (StatusCode.notFound, none, refreshedState s request elem now)
      else (StatusCode.ok, some elem.check_response, s) := by
  unfold CheckAggState.check refreshedState
  rw [if_neg (not_not_intro hname), if_neg (by simp [hop]),
    if_neg (by simp [himp, hen])]
  simp only [hfind]
  rw [if_pos (List.length_pos.2 herr)]
  by_cases hf : s.flush_interval_in_cycle ≤ now - elem.last_check_time
  · rw [if_pos ((shouldFlush_iff s elem now).2 hf), if_pos hf]
  · rw [if_neg (fun h => hf ((shouldFlush_iff s elem now).1 h)), if_neg hf]

/-- Over any sequence of `Check` calls against a denied entry, the times of
the NOT_FOUND results (prefixed by the entry's initial refresh time) are
each at least one flush interval apart. -/
theorem runChecks_denied_chain (request : CheckRequest) (times : List Int) :
    ∀ (s : CheckAggState) (elem : CacheElem),
      request.service_name = s.service_name →
      request.operation.isNone = false →
      (request.operation.getD defaultOperation).importance = Importance.low →
      s.cacheEnabled = true →
      assocFind s.cache (GenerateCheckRequestSignature request) = some elem →
      elem.check_response.check_errors ≠ [] →
      List.Chain' (fun a b => a + s.flush_interval_in_cycle ≤ b)
        (elem.last_check_time :: notFoundTimes (runChecks s request times)) := by
  induction times with
  | nil =>
    intro s elem _ _ _ _ _ _
    simp [runChecks, notFoundTimes]
  | cons t ts ih =>
    intro s elem hname hop himp hen hfind herr
    rw [runChecks]
    rw [check_denied_hit s request t elem hname hop himp hen hfind herr]
    by_cases hf : s.flush_interval_in_cycle ≤ t - elem.last_check_time
    · rw [if_pos hf]
      simp only [notFoundTimes, List.filterMap_cons]
      norm_num
      have hstep := ih (refreshedState s request elem t)
        ({ elem with last_check_time := t }) hname hop himp hen
        (assocFind_replace_self _ _ _ _ hfind) herr
      exact ⟨by omega, hstep⟩
    · rw [if_neg hf]
      simp only [notFoundTimes, List.filterMap_cons]
      exact ih s elem hname hop himp hen hfind herr

/-- Claim C7: on a `Check` hit against an entry whose cached response has
check errors, the call returns OK with the cached denial and leaves the
state unchanged while `age < flush_interval`, and sets
`last_check_time := now` returning NOT_FOUND once `age ≥ flush_interval`;
consequently, over any sequence of repeated `Check` calls on the same
denied fingerprint, consecutive NOT_FOUND results are at least one flush
interval apart (at most one refresh per flush interval). -/
theorem check_denied_entry_spec (s : CheckAggState) (request : CheckRequest)
    (now : Int) (elem : CacheElem)
    (hname : request.service_name = s.service_name)
    (hop : request.operation.isNone = false)
    (himp : (request.operation.getD defaultOperation).importance = Importance.low)
    (hen : s.cacheEnabled = true)
    (hfind : assocFind s.cache (GenerateCheckRequestSignature request) = some elem)
    (herr : elem.check_response.check_errors ≠ []) :
    (now - elem.last_check_time < s.flush_interval_in_cycle →
      s.check request now = (StatusCode.ok, some elem.check_response, s)) ∧
    (s.flush_interval_in_cycle ≤ now - elem.last_check_time →
      s.check request now =
        (StatusCode.notFound, none, refreshedState s request elem now)) ∧
    (∀ times : List Int,
      List.Chain' (fun a b => a + s.flush_interval_in_cycle ≤ b)
        (elem.last_check_time :: notFoundTimes (runChecks s request times))) := by
  refine ⟨?_, ?_, ?_⟩
  · intro hlt
    rw [check_denied_hit s request now elem hname hop himp hen hfind herr,
      if_neg (by omega)]
  · intro hge
    rw [check_denied_hit s request now elem hname hop himp hen hfind herr,
      if_pos hge]
  · intro times
    exact runChecks_denied_chain request times s elem hname hop himp hen hfind herr

/-- Witness for claim C7 at the concrete denied fixture (flush interval
100, entry refreshed at 0): a check at time 50 serves the cached denial
unchanged and a check at time 100 refreshes and returns NOT_FOUND. -/
theorem check_denied_entry_spec_witness :
    deniedState.check cexRequest 50 =
      (StatusCode.ok, some deniedResponse, deniedState) ∧
    (deniedState.check cexRequest 100).1 = StatusCode.notFound :=
  ⟨(check_denied_entry_spec deniedState cexRequest 50 ⟨none, deniedResponse, 0, 0, false⟩
      rfl rfl rfl rfl (by decide) (by decide)).1 (by decide),
    by
      rw [(check_denied_entry_spec deniedState cexRequest 100
        ⟨none, deniedResponse, 0, 0, false⟩ rfl rfl rfl rfl (by decide)
        (by decide)).2.1 (by decide)]⟩

/-- Adding a report request with at most `kMaxOperationsToSend` operations
to a stack buffer whose elements all respect the bound preserves the
bound: the tail-merge only happens when the combined count stays within
it. -/
theorem reportStackAdd_bound :
    ∀ (l : List ReportRequest) (x : ReportRequest),
      (∀ r ∈ l, r.operations.length ≤ kMaxOperationsToSend) →
      x.operations.length ≤ kMaxOperationsToSend →
      ∀ r ∈ stackAdd reportMergeItem l x,
        r.operations.length ≤ kMaxOperationsToSend := by
  intro l
  induction l with
  | nil =>
    intro x _ hx r hr
    simp [stackAdd] at hr
    exact hr ▸ hx
  | cons a rest ih =>
    intro x hl hx r hr
    cases rest with
    | nil =>
      simp only [stackAdd] at hr
      by_cases hm : (reportMergeItem x a).1 = true
      · rw [if_pos hm] at hr
        simp at hr
        subst hr
        unfold reportMergeItem at hm ⊢
        by_cases hcond : a.service_name ≠ x.service_name ∨
            a.operations.length + x.operations.length > kMaxOperationsToSend
        · rw [if_pos hcond] at hm
          simp at hm
        · rw [if_neg hcond] at hm ⊢
          push_neg at hcond
          simp [ReportRequest.mergeFrom]
          omega
      · rw [if_neg hm] at hr
        simp at hr
        rcases hr with hr | hr
        · exact hr ▸ hl a (by simp)
        · exact hr ▸ hx
    | cons b rest' =>
      simp only [stackAdd] at hr
      simp at hr
      rcases hr with hr | hr
      · exact hr ▸ hl a (by simp)
      · exact ih x (fun r hrmem => hl r (by simp [hrmem])) hx r hr

/-- Folding report requests within the bound through the stack buffer
keeps every buffered request within the bound. -/
theorem reportBuffer_bound :
    ∀ (items acc : List ReportRequest),
      (∀ r ∈ acc, r.operations.length ≤ kMaxOperationsToSend) →
      (∀ r ∈ items, r.operations.length ≤ kMaxOperationsToSend) →
      ∀ r ∈ items.foldl (stackAdd reportMergeItem) acc,
        r.operations.length ≤ kMaxOperationsToSend := by
  intro items
  induction items with
  | nil => intro acc hacc _ r hr; exact hacc r hr
  | cons x xs ih =>
    intro acc hacc hitems r hr
    rw [List.foldl_cons] at hr
    exact ih (stackAdd reportMergeItem acc x)
      (reportStackAdd_bound acc x hacc (hitems x (by simp)))
      (fun r hrmem => hitems r (by simp [hrmem])) r hr

/-- The check aggregator's buffer never merges: adding always appends. -/
theorem checkStackAdd_append :
    ∀ (l : List CheckRequest) (x : CheckRequest),
      stackAdd checkMergeItem l x = l ++ [x] := by
  intro l
  induction l with
  | nil => intro x; simp [stackAdd]
  | cons a rest ih =>
    intro x
    cases rest with
    | nil => simp [stackAdd, checkMergeItem]
    | cons b rest' => simp [stackAdd, ih]

/-- Claim C8: the report eviction buffer merges an evicted request into the
buffered tail iff the service names match and the combined operation count
is at most 100, concatenating the operations when it does; consequently
every outbound report request emitted by a `FlushAll` eviction sweep
carries at most 100 operations; and the check cache's buffer never merges
(items pass through unchanged). -/
theorem report_eviction_buffer_spec :
    (∀ new_item old_item : ReportRequest,
      (reportMergeItem new_item old_item).1 = true ↔
        old_item.service_name = new_item.service_name ∧
          old_item.operations.length + new_item.operations.length ≤
            kMaxOperationsToSend) ∧
    (∀ new_item old_item : ReportRequest,
      (reportMergeItem new_item old_item).1 = true →
      (reportMergeItem new_item old_item).2.operations =
        old_item.operations ++ new_item.operations) ∧
    (∀ s : ReportAggState, ∀ r ∈ (s.flushAll).2,
      r.operations.length ≤ kMaxOperationsToSend) ∧
    (∀ items : List CheckRequest, stackBufferOf checkMergeItem items = items) := by
  refine ⟨?_, ?_, ?_, ?_⟩
  · intro new_item old_item
    unfold reportMergeItem
    by_cases hcond : old_item.service_name ≠ new_item.service_name ∨
        old_item.operations.length + new_item.operations.length > kMaxOperationsToSend
    · rw [if_pos hcond]
      constructor
      · intro h; simp at h
      · rintro ⟨heq, hle⟩
        exfalso
        rcases hcond with hne | hgt
        · exact hne heq
        · omega
    · rw [if_neg hcond]
      push_neg at hcond
      exact ⟨fun _ => hcond, fun _ => rfl⟩
  · intro new_item old_item hm
    unfold reportMergeItem at hm ⊢
    by_cases hcond : old_item.service_name ≠ new_item.service_name ∨
        old_item.operations.length + new_item.operations.length > kMaxOperationsToSend
    · rw [if_pos hcond] at hm
      simp at hm
    · rw [if_neg hcond]
      rfl
  · intro s r hr
    unfold ReportAggState.flushAll at hr
    simp only [] at hr
    refine reportBuffer_bound _ [] (by simp) ?_ r hr
    intro r' hr'
    simp only [List.mem_map] at hr'
    obtain ⟨p, _, hp⟩ := hr'
    rw [← hp]
    simp [ReportAggState.onCacheEntryDelete, kMaxOperationsToSend]
  · intro items
    unfold stackBufferOf
    have haux : ∀ (l acc : List CheckRequest),
        l.foldl (stackAdd checkMergeItem) acc = acc ++ l := by
      intro l
      induction l with
      | nil => intro acc; simp
      | cons x xs ih =>
        intro acc
        rw [List.foldl_cons, checkStackAdd_append, ih]
        simp
    simpa using haux items []

/-- Witness for claim C8: merging two one-operation requests for the same
service succeeds, and a check buffer passes a single item through
unmerged. -/
theorem report_eviction_buffer_spec_witness :
    (reportMergeItem ⟨"svc", "", [defaultOperation]⟩
      ⟨"svc", "", [defaultOperation]⟩).1 = true ∧
    stackBufferOf checkMergeItem [cexRequest] = [cexRequest] :=
  ⟨(report_eviction_buffer_spec.1 ⟨"svc", "", [defaultOperation]⟩
      ⟨"svc", "", [defaultOperation]⟩).2 ⟨rfl, by decide⟩,
    report_eviction_buffer_spec.2.2.2 [cexRequest]⟩

/-- Claim C2 (amended): the client destructor's observable step order is
`FlushAll` on both caches FIRST, then stopping the periodic timer, then
swapping both flush callbacks to no-op; because the callbacks are still
connected while `FlushAll` runs, its evictions are delivered to the flush
callbacks, and a report cache holding at least one pending aggregator
emits at least one outbound request during shutdown. -/
theorem shutdown_flushes_before_disconnect (s : ClientState)
    (h : s.hasTimer = true) :
    s.destruct.1 = [ShutdownEv.evFlushAllCaches, ShutdownEv.evStopTimer,
      ShutdownEv.evSetCheckFlushCallbackNull,
      ShutdownEv.evSetReportFlushCallbackNull] ∧
    (s.checkCbConnected = true → s.destruct.2.1 = (s.checkAgg.flushAll).2) ∧
    (s.reportCbConnected = true → s.destruct.2.2 = (s.reportAgg.flushAll).2) ∧
    (s.reportCbConnected = true → s.reportAgg.cache ≠ [] →
      s.destruct.2.2 ≠ []) := by
  refine ⟨?_, ?_, ?_, ?_⟩
  · simp [ClientState.destruct, h]
  · intro hc
    simp [ClientState.destruct, hc]
  · intro hr
    simp [ClientState.destruct, hr]
  · intro hr hcache
    simp only [ClientState.destruct, hr, if_true, if_pos]
    unfold ReportAggState.flushAll
    simp only []
    apply stackBufferOf_ne_nil
    simp [hcache]

/-- Witness for claim C2's amended theorem at the concrete shutdown
fixture: one outbound report request is delivered during destruction. -/
theorem shutdown_flushes_before_disconnect_witness :
    cexClient.destruct.1 = [ShutdownEv.evFlushAllCaches, ShutdownEv.evStopTimer,
      ShutdownEv.evSetCheckFlushCallbackNull,
      ShutdownEv.evSetReportFlushCallbackNull] ∧ cexClient.destruct.2.2 ≠ [] :=
  ⟨(shutdown_flushes_before_disconnect cexClient rfl).1,
    (shutdown_flushes_before_disconnect cexClient rfl).2.2.2 rfl (by decide)⟩

end ServiceControlClient
